import Mathlib

set_option autoImplicit false

namespace RVLogbook

/-!
Shallow embedding of the rv-logbook backend core (Go): domain types,
service-layer validation and orchestration, slug normalization, the
export service, and CSV rendering. Each definition mirrors a function
of the source tree; theorems at the end settle the specification
claims against these definitions.
-/

/-- Error classes of `internal/domain/errors.go`: `ErrNotFound`,
`ErrValidation`, and any other (infrastructure) failure. -/
inductive ErrKind where
  | notFound
  | validation
  | infra
  deriving DecidableEq, Repr

/-- A Go `error` value as observed by the services: its class (preserved
through `fmt.Errorf("...: %w", err)` wrapping, as `errors.Is` would see it)
and its message text. -/
structure Err where
  kind : ErrKind
  msg : String
  deriving DecidableEq, Repr

/-- Embedding of `fmt.Errorf("<ctx>: %w", err)`: prefixes context onto the
message and keeps the wrapped error's class. -/
def wrapErr (ctx : String) (e : Err) : Err :=
  ⟨e.kind, ctx ++ ": " ++ e.msg⟩

/-- A `time.Time` instant, reduced to Unix seconds (UTC). -/
structure Time where
  sec : Int
  deriving DecidableEq, Repr

/-- Embedding of `time.Time.Before`: strict instant comparison. -/
def Time.before (a b : Time) : Bool :=
  decide (a.sec < b.sec)

/-- White space as recognized by `strings.TrimSpace` (`unicode.IsSpace`),
restricted to the code points the backend can meet in practice. -/
def isSpaceChar (c : Char) : Bool :=
  c == ' ' || c == '\t' || c == '\n' || c == '\r' ||
    c.toNat == 11 || c.toNat == 12 || c.toNat == 133 || c.toNat == 160

/-- Embedding of `strings.TrimSpace`. -/
def trimSpace (s : String) : String :=
  ⟨((s.data.dropWhile isSpaceChar).reverse.dropWhile isSpaceChar).reverse⟩

/-- Embedding of `strings.ToLower` on one character (ASCII range, the only
range that can reach the `[a-z0-9]` slug alphabet). -/
def toLowerChar (c : Char) : Char :=
  if 65 ≤ c.toNat ∧ c.toNat ≤ 90 then Char.ofNat (c.toNat + 32) else c

/-- Embedding of `strings.ToLower` on a whole string. -/
def lowerString (s : String) : String :=
  ⟨s.data.map toLowerChar⟩

/-- Character class `[a-z0-9]` of the `nonAlphanumeric` pattern in
`service/tag.go` (complement of `[^a-z0-9]`). -/
def isSlugChar (c : Char) : Bool :=
  (97 ≤ c.toNat && c.toNat ≤ 122) || (48 ≤ c.toNat && c.toNat ≤ 57)

/-- Embedding of `nonAlphanumeric.ReplaceAllString(lower, "-")`: every
maximal run of characters outside `[a-z0-9]` becomes one hyphen (the run's
last character emits the hyphen, earlier ones are dropped). -/
def collapseRuns : List Char → List Char
  | [] => []
  | [c] => if isSlugChar c then [c] else ['-']
  | c :: c2 :: cs =>
    if isSlugChar c then c :: collapseRuns (c2 :: cs)
    else if isSlugChar c2 then '-' :: collapseRuns (c2 :: cs)
    else collapseRuns (c2 :: cs)

/-- Helper for `strings.Trim(slug, "-")`: removes the maximal trailing run
of hyphens. -/
def trimTrailingHyphens : List Char → List Char
  | [] => []
  | c :: cs =>
    match trimTrailingHyphens cs with
    | [] => if c == '-' then [] else [c]
    | r :: rs => c :: r :: rs

/-- Embedding of `strings.Trim(slug, "-")`: removes leading and trailing
hyphen runs. -/
def trimHyphens (l : List Char) : List Char :=
  trimTrailingHyphens (l.dropWhile (fun c => c == '-'))

/-- Embedding of `toSlug` in `service/tag.go`: lowercase, replace runs of
non-alphanumerics with a single hyphen, trim boundary hyphens. -/
def toSlug (name : String) : String :=
  ⟨trimHyphens (collapseRuns (lowerString name).data)⟩

/-- A `domain.Trip` record (`internal/domain/trip.go`). UUIDs are modelled
as natural numbers. -/
structure Trip where
  id : Nat
  name : String
  startDate : Time
  endDate : Option Time
  notes : String
  createdAt : Time
  updatedAt : Time
  deriving DecidableEq, Repr

/-- A `domain.Stop` record (`internal/domain/stop.go`). -/
structure Stop where
  id : Nat
  tripID : Nat
  name : String
  location : String
  arrivedAt : Time
  departedAt : Option Time
  notes : String
  createdAt : Time
  updatedAt : Time
  deriving DecidableEq, Repr

/-- A `domain.Tag` record: id, display name, slug, creation time. -/
structure Tag where
  id : Nat
  name : String
  slug : String
  createdAt : Time
  deriving DecidableEq, Repr

/-- A `domain.ExportRow` record (`internal/domain/export.go`). -/
structure ExportRow where
  tripID : String
  tripName : String
  tripStartDate : String
  tripEndDate : String
  stopName : String
  stopLocation : String
  arrivedAt : Option Time
  departedAt : Option Time
  stopNotes : String
  tags : List String
  deriving DecidableEq, Repr

/-- A `domain.PaginationParams` record. Go `int` is modelled as `Int`. -/
structure PaginationParams where
  page : Int
  limit : Int
  deriving DecidableEq, Repr

/-- Embedding of `domain.NewPaginationParams`: defaults page to 1 and limit
to 20, takes a given page when at least 1, takes a given limit when at
least 1 and caps it at 100. -/
def NewPaginationParams (page lim : Option Int) : PaginationParams :=
  let p1 : PaginationParams := ⟨1, 20⟩
  let p2 : PaginationParams :=
    match page with
    | some v => if 1 ≤ v then ⟨v, p1.limit⟩ else p1
    | none => p1
  match lim with
  | some v =>
    if 1 ≤ v then ⟨p2.page, if 100 < v then 100 else v⟩ else p2
  | none => p2

/-- Embedding of `PaginationParams.Offset`. -/
def PaginationParams.offset (p : PaginationParams) : Int :=
  (p.page - 1) * p.limit

/-- Embedding of `service.validateTrip` (`nil` result is `none`). -/
def validateTrip (trip : Trip) : Option Err :=
  if trimSpace trip.name = "" then
    some ⟨ErrKind.validation, "validation error: name is required"⟩
  else
    match trip.endDate with
    | some e =>
      if e.before trip.startDate then
        some ⟨ErrKind.validation, "validation error: end_date must not be before start_date"⟩
      else none
    | none => none

/-- Embedding of `service.validateStop`. -/
def validateStop (stop : Stop) : Option Err :=
  if trimSpace stop.name = "" then
    some ⟨ErrKind.validation, "validation error: name is required"⟩
  else
    match stop.departedAt with
    | some d =>
      if d.before stop.arrivedAt then
        some ⟨ErrKind.validation, "validation error: departed_at must not be before arrived_at"⟩
      else none
    | none => none

/-- The `repo.TripRepo` operations `TripService` uses, as pure functions
from input to a typed result. -/
structure TripRepoOps where
  create : Trip → Except Err Trip
  update : Trip → Except Err Trip

/-- Embedding of `TripService.Create`: validate, then delegate to the store
and wrap store errors with the operation name. -/
def tripServiceCreate (r : TripRepoOps) (trip : Trip) : Except Err Trip :=
  match validateTrip trip with
  | some e => .error e
  | none =>
    match r.create trip with
    | .error e => .error (wrapErr "service.TripService.Create" e)
    | .ok result => .ok result

/-- Embedding of `TripService.Update`: validate, then delegate to the store. -/
def tripServiceUpdate (r : TripRepoOps) (trip : Trip) : Except Err Trip :=
  match validateTrip trip with
  | some e => .error e
  | none =>
    match r.update trip with
    | .error e => .error (wrapErr "service.TripService.Update" e)
    | .ok result => .ok result

/-- The store operations `StopService.Create` and `StopService.Update` use. -/
structure StopServiceOps where
  tripGetByID : Nat → Except Err Trip
  stopCreate : Stop → Except Err Stop
  stopUpdate : Stop → Except Err Stop

/-- Embedding of `StopService.Create`: confirm the parent trip exists,
then validate, then persist. -/
def stopServiceCreate (r : StopServiceOps) (stop : Stop) : Except Err Stop :=
  match r.tripGetByID stop.tripID with
  | .error e => .error (wrapErr "service.StopService.Create" e)
  | .ok _ =>
    match validateStop stop with
    | some e => .error e
    | none =>
      match r.stopCreate stop with
      | .error e => .error (wrapErr "service.StopService.Create" e)
      | .ok result => .ok result

/-- Embedding of `StopService.Update`: validate, then delegate to the store. -/
def stopServiceUpdate (r : StopServiceOps) (stop : Stop) : Except Err Stop :=
  match validateStop stop with
  | some e => .error e
  | none =>
    match r.stopUpdate stop with
    | .error e => .error (wrapErr "service.StopService.Update" e)
    | .ok result => .ok result

/-- The `repo.TagRepo` operations `StopService.AddTag` uses, over an
abstract store state `σ` (each call returns the next state and a result,
mirroring a call against the database). -/
structure TagStoreOps (σ : Type) where
  upsert : σ → String → String → σ × Except Err Tag
  addToStop : σ → Nat → Nat → σ × Except Err Unit

/-- Embedding of `StopService.AddTag`: trim the name, reject an empty name
or an empty slug, upsert the tag by slug, then link it to the stop. -/
def stopServiceAddTag {σ : Type} (ops : TagStoreOps σ) (db : σ)
    (stopID : Nat) (tagName : String) : σ × Except Err Tag :=
  let name := trimSpace tagName
  if name = "" then
    (db, .error ⟨ErrKind.validation, "validation error: tag name is required"⟩)
  else
    let slug := toSlug name
    if slug = "" then
      (db, .error ⟨ErrKind.validation, "validation error: tag name contains no usable characters"⟩)
    else
      match ops.upsert db name slug with
      | (db1, .error e) => (db1, .error (wrapErr "service.StopService.AddTag" e))
      | (db1, .ok tag) =>
        match ops.addToStop db1 stopID tag.id with
        | (db2, .error e) => (db2, .error (wrapErr "service.StopService.AddTag" e))
        | (db2, .ok _) => (db2, .ok tag)

/-- In-memory image of the Postgres state the tag repo touches: the ids of
existing `stops` rows, the `tags` rows, the `stop_tags` join rows, and the
next generated tag id. -/
structure TagDB where
  stopIDs : List Nat
  tagRows : List Tag
  stopTags : List (Nat × Nat)
  nextID : Nat
  deriving DecidableEq, Repr

/-- Embedding of `pgTagRepo.Upsert` (`INSERT ... ON CONFLICT (slug) DO
UPDATE SET slug = EXCLUDED.slug RETURNING ...`): on slug conflict the
existing row is returned unchanged (first writer's name wins); otherwise a
new row with a generated id is inserted and returned. -/
def pgUpsert (db : TagDB) (name slug : String) : TagDB × Except Err Tag :=
  match db.tagRows.find? (fun t => t.slug == slug) with
  | some t => (db, .ok t)
  | none =>
    let t : Tag := ⟨db.nextID, name, slug, ⟨0⟩⟩
    (⟨db.stopIDs, db.tagRows ++ [t], db.stopTags, db.nextID + 1⟩, .ok t)

/-- Embedding of `pgTagRepo.AddToStop` (`INSERT INTO stop_tags ... ON
CONFLICT (stop_id, tag_id) DO NOTHING`): a foreign-key violation when the
stop or tag row does not exist, a no-op when the pair is already linked,
an insert otherwise. -/
def pgAddToStop (db : TagDB) (stopID tagID : Nat) : TagDB × Except Err Unit :=
  if db.stopIDs.contains stopID && db.tagRows.any (fun t => t.id == tagID) then
    if db.stopTags.contains (stopID, tagID) then (db, .ok ())
    else (⟨db.stopIDs, db.tagRows, db.stopTags ++ [(stopID, tagID)], db.nextID⟩, .ok ())
  else
    (db, .error ⟨ErrKind.infra, "repo.TagRepo.AddToStop: foreign key violation"⟩)

/-- The Postgres-backed tag store operations. -/
def pgTagOps : TagStoreOps TagDB :=
  ⟨pgUpsert, pgAddToStop⟩

/-- Proleptic Gregorian date (year, month, day) of a count of days since
1970-01-01, as Go's `time` package computes it for UTC instants. -/
def civilFromDays (z0 : Int) : Int × Int × Int :=
  let z := z0 + 719468
  let era : Int := (if 0 ≤ z then z else z - 146096).tdiv 146097
  let doe : Int := z - era * 146097
  let yoe : Int := (doe - doe.tdiv 1460 + doe.tdiv 36524 - doe.tdiv 146096).tdiv 365
  let y : Int := yoe + era * 400
  let doy : Int := doe - (365 * yoe + yoe.tdiv 4 - yoe.tdiv 100)
  let mp : Int := (5 * doy + 2).tdiv 153
  let d : Int := doy - (153 * mp + 2).tdiv 5 + 1
  let m : Int := mp + (if mp < 12 then 3 else -9)
  (y + (if m ≤ 2 then 1 else 0), m, d)

/-- Decimal rendering of an integer zero-padded to a width, as Go's time
formatter pads date components. -/
def padNum (width : Nat) (n : Int) : String :=
  let s := toString n.natAbs
  let s := ⟨List.replicate (width - s.length) '0'⟩ ++ s
  if n < 0 then "-" ++ s else s

/-- Embedding of `t.Format("2006-01-02")` on a UTC instant. -/
def formatDate (t : Time) : String :=
  let days := t.sec.fdiv 86400
  let ymd := civilFromDays days
  padNum 4 ymd.1 ++ "-" ++ padNum 2 ymd.2.1 ++ "-" ++ padNum 2 ymd.2.2

/-- Embedding of `t.UTC().Format(time.RFC3339)`. -/
def formatRFC3339UTC (t : Time) : String :=
  let days := t.sec.fdiv 86400
  let secOfDay := t.sec - days * 86400
  let ymd := civilFromDays days
  padNum 4 ymd.1 ++ "-" ++ padNum 2 ymd.2.1 ++ "-" ++ padNum 2 ymd.2.2 ++ "T" ++
    padNum 2 (secOfDay.tdiv 3600) ++ ":" ++ padNum 2 (secOfDay.tdiv 60 % 60) ++ ":" ++
    padNum 2 (secOfDay % 60) ++ "Z"

/-- The repo fetches `ExportService.Export` performs, as pure values: the
trip listing, the per-trip stop listing, and the per-stop tag listing. -/
structure ExportStores where
  tripsList : Except Err (List Trip)
  stopsListByTripID : Nat → Except Err (List Stop)
  tagsListByStop : Nat → Except Err (List Tag)

/-- The `tripBase` row built per trip in `ExportService.Export`: trip
fields formatted, stop fields at their zero values. -/
def tripBase (trip : Trip) : ExportRow :=
  ⟨toString trip.id, trip.name, formatDate trip.startDate,
    (match trip.endDate with | some e => formatDate e | none => ""),
    "", "", none, none, "", []⟩

/-- One stop's row in `ExportService.Export`: the trip base with the stop
fields and tag slugs filled in. -/
def stopRow (base : ExportRow) (stop : Stop) (slugs : List String) : ExportRow :=
  ⟨base.tripID, base.tripName, base.tripStartDate, base.tripEndDate,
    stop.name, stop.location, some stop.arrivedAt, stop.departedAt,
    stop.notes, slugs⟩

/-- The inner loop of `ExportService.Export` over one trip's stops: fetch
each stop's tags and emit its row, aborting on the first error. -/
def stopRowsLoop (r : ExportStores) (base : ExportRow) : List Stop → Except Err (List ExportRow)
  | [] => .ok []
  | stop :: rest =>
    match r.tagsListByStop stop.id with
    | .error e => .error (wrapErr "service.ExportService.Export" e)
    | .ok tags =>
      match stopRowsLoop r base rest with
      | .error e => .error e
      | .ok rows => .ok (stopRow base stop (tags.map (fun t => t.slug)) :: rows)

/-- The outer loop of `ExportService.Export` over the trips: fetch each
trip's stops, emit one base row for a stopless trip or one row per stop,
aborting on the first error. -/
def tripRowsLoop (r : ExportStores) : List Trip → Except Err (List ExportRow)
  | [] => .ok []
  | trip :: rest =>
    match r.stopsListByTripID trip.id with
    | .error e => .error (wrapErr "service.ExportService.Export" e)
    | .ok stops =>
      match (if stops.isEmpty then Except.ok [tripBase trip] else stopRowsLoop r (tripBase trip) stops) with
      | .error e => .error e
      | .ok rows1 =>
        match tripRowsLoop r rest with
        | .error e => .error e
        | .ok rows2 => .ok (rows1 ++ rows2)

/-- Embedding of `ExportService.Export`, keeping Go's two return values:
the row slice (`none` is Go's `nil` slice) and the error. -/
def exportAll (r : ExportStores) : Option (List ExportRow) × Option Err :=
  match r.tripsList with
  | .error e => (none, some (wrapErr "service.ExportService.Export" e))
  | .ok trips =>
    match tripRowsLoop r trips with
    | .error e => (none, some e)
    | .ok rows => (some rows, none)

/-- Stores in which every fetch succeeds, given by the underlying data. -/
def okStores (trips : List Trip) (stopsOf : Nat → List Stop) (tagsOf : Nat → List Tag) : ExportStores :=
  ⟨.ok trips, fun id => .ok (stopsOf id), fun id => .ok (tagsOf id)⟩

/-- Specification-side row block of one trip: one base row when the trip
has no stops, else one row per stop in listing order. -/
def rowsForTrip (stopsOf : Nat → List Stop) (tagsOf : Nat → List Tag) (trip : Trip) : List ExportRow :=
  let stops := stopsOf trip.id
  if stops.isEmpty then [tripBase trip]
  else stops.map (fun s => stopRow (tripBase trip) s ((tagsOf s.id).map (fun t => t.slug)))

/-- Test for an error result of a fetch. -/
def isErr {α : Type} : Except Err α → Bool
  | .error _ => true
  | .ok _ => false

/-- Whether any fetch the export traversal can reach returns an error. -/
def anyFetchErr (r : ExportStores) : Bool :=
  match r.tripsList with
  | .error _ => true
  | .ok trips =>
    trips.any (fun t =>
      match r.stopsListByTripID t.id with
      | .error _ => true
      | .ok stops => stops.any (fun s => isErr (r.tagsListByStop s.id)))

/-- Column names of the CSV export (`csvHeaders` in `handler/export.go`). -/
def csvHeaders : List String :=
  ["trip_id", "trip_name", "trip_start_date", "trip_end_date",
    "stop_name", "stop_location", "arrived_at", "departed_at",
    "stop_notes", "tags"]

/-- Embedding of `formatOptionalTime`: empty string for a nil time, RFC3339
UTC otherwise. -/
def formatOptionalTime (t : Option Time) : String :=
  match t with
  | none => ""
  | some x => formatRFC3339UTC x

/-- Embedding of `domainRowToCSVRecord`: one flat record of ten fields,
tags joined with a pipe. -/
def domainRowToCSVRecord (r : ExportRow) : List String :=
  [r.tripID, r.tripName, r.tripStartDate, r.tripEndDate,
    r.stopName, r.stopLocation,
    formatOptionalTime r.arrivedAt, formatOptionalTime r.departedAt,
    r.stopNotes, String.intercalate "|" r.tags]

/-- Embedding of `buildCSVResponse` at the record level: the header record
followed by one record per row, in input order (the CSV writer then
serializes each record as one line). -/
def buildCSVRecords (rows : List ExportRow) : List (List String) :=
  csvHeaders :: rows.map domainRowToCSVRecord

/-! Helper lemmas shared by several claims. -/

/-- Every error `validateTrip` produces is of the validation class. -/
theorem validateTrip_validation_kind (trip : Trip) (e : Err)
    (h : validateTrip trip = some e) : e.kind = ErrKind.validation := by
  unfold validateTrip at h
  split at h
  · exact (Option.some.inj h) ▸ rfl
  · split at h
    · split at h
      · exact (Option.some.inj h) ▸ rfl
      · simp_all
    · simp_all

/-- Every error `validateStop` produces is of the validation class. -/
theorem validateStop_validation_kind (stop : Stop) (e : Err)
    (h : validateStop stop = some e) : e.kind = ErrKind.validation := by
  unfold validateStop at h
  split at h
  · exact (Option.some.inj h) ▸ rfl
  · split at h
    · split at h
      · exact (Option.some.inj h) ▸ rfl
      · simp_all
    · simp_all

/-- A trip failing validation makes both Create and Update return that
error unchanged, whatever the store does. -/
theorem tripService_error_of_validate (r : TripRepoOps) (trip : Trip) (e : Err)
    (h : validateTrip trip = some e) :
    tripServiceCreate r trip = .error e ∧ tripServiceUpdate r trip = .error e := by
  unfold tripServiceCreate tripServiceUpdate
  rw [h]
  exact ⟨rfl, rfl⟩

/-- A name made of white space only trims to the empty string. -/
theorem trimSpace_of_all_space (s : String) (h : s.data.all isSpaceChar = true) :
    trimSpace s = "" := by
  unfold trimSpace
  have hd : s.data.dropWhile isSpaceChar = [] := by
    rw [List.dropWhile_eq_nil_iff]
    intro x hx
    exact (List.all_eq_true.mp h) x hx
  rw [hd]
  rfl

/-- C5 counterexample: the claim says a limit below 1 is clamped up to 1,
but `NewPaginationParams` with limit 0 falls back to the default 20. -/
theorem c5_counterexample :
    (NewPaginationParams none (some 0)).limit = 20
    ∧ ¬ (NewPaginationParams none (some 0)).limit = 1 := by
  decide

/-- C5 (amended): `NewPaginationParams` yields page equal to the given page
when it is at least 1 and 1 otherwise; the limit equals the given limit
capped at 100 when the given limit is at least 1, and otherwise (absent or
below 1) the default 20; `offset` is `(page - 1) * limit`. -/
theorem c5_pagination_characterization (page lim : Option Int) :
    (NewPaginationParams page lim).page =
      (match page with
       | some v => if 1 ≤ v then v else 1
       | none => 1)
    ∧ (NewPaginationParams page lim).limit =
      (match lim with
       | some v => if 1 ≤ v then min v 100 else 20
       | none => 20)
    ∧ (NewPaginationParams page lim).offset =
      ((NewPaginationParams page lim).page - 1) * (NewPaginationParams page lim).limit := by
  refine ⟨?_, ?_, rfl⟩ <;>
    rcases page with _ | w <;> rcases lim with _ | v <;>
      simp only [NewPaginationParams] <;> (try split_ifs) <;> (try simp_all) <;> omega

/-- C3: when the parent trip lookup fails with a not-found error, the stop
create service returns that error wrapped, still of the not-found class and
never of the validation class; the conclusion holds for every behavior of
the stop store and every stop value (so validation is not consulted and no
stop is persisted). -/
theorem c3_stop_create_notfound_first (r : StopServiceOps) (stop : Stop) (e : Err)
    (hget : r.tripGetByID stop.tripID = .error e) (hkind : e.kind = ErrKind.notFound) :
    stopServiceCreate r stop = .error (wrapErr "service.StopService.Create" e)
    ∧ (wrapErr "service.StopService.Create" e).kind = ErrKind.notFound
    ∧ ¬ (wrapErr "service.StopService.Create" e).kind = ErrKind.validation := by
  refine ⟨?_, ?_, ?_⟩
  · unfold stopServiceCreate
    rw [hget]
  · simpa [wrapErr] using hkind
  · simp [wrapErr, hkind]

/-- Store doubles for the C3 witness: the trip lookup always misses, the
stop store accepts everything. -/
def c3Store : StopServiceOps :=
  ⟨fun _ => .error ⟨ErrKind.notFound, "not found"⟩, fun s => .ok s, fun s => .ok s⟩

/-- A stop that also violates both field rules (empty name, departure
before arrival), to show the not-found error still wins. -/
def c3Stop : Stop :=
  ⟨1, 42, "", "", ⟨5⟩, some ⟨0⟩, "", ⟨0⟩, ⟨0⟩⟩

/-- C3 witness at a concrete store and a concrete invalid stop. -/
theorem c3_witness :
    stopServiceCreate c3Store c3Stop
      = .error (wrapErr "service.StopService.Create" ⟨ErrKind.notFound, "not found"⟩)
    ∧ (wrapErr "service.StopService.Create" (⟨ErrKind.notFound, "not found"⟩ : Err)).kind
        = ErrKind.notFound
    ∧ ¬ (wrapErr "service.StopService.Create" (⟨ErrKind.notFound, "not found"⟩ : Err)).kind
        = ErrKind.validation :=
  c3_stop_create_notfound_first c3Store c3Stop ⟨ErrKind.notFound, "not found"⟩ rfl rfl

/-- C10: both update services run field validation before any store access:
a validation failure is returned unchanged for every store behavior (in
particular stores whose every lookup misses), so ValidationError wins over
NotFound on Update. -/
theorem c10_update_validates_before_store (rt : TripRepoOps) (rs : StopServiceOps)
    (trip : Trip) (stop : Stop) (e1 e2 : Err) :
    (validateTrip trip = some e1 →
      tripServiceUpdate rt trip = .error e1 ∧ e1.kind = ErrKind.validation)
    ∧ (validateStop stop = some e2 →
      stopServiceUpdate rs stop = .error e2 ∧ e2.kind = ErrKind.validation) := by
  constructor
  · intro h
    exact ⟨(tripService_error_of_validate rt trip e1 h).2,
      validateTrip_validation_kind trip e1 h⟩
  · intro h
    constructor
    · unfold stopServiceUpdate
      rw [h]
    · exact validateStop_validation_kind stop e2 h

/-- Stores for the C10 witness whose every access reports not-found. -/
def c10TripStore : TripRepoOps :=
  ⟨fun _ => .error ⟨ErrKind.notFound, "not found"⟩,
    fun _ => .error ⟨ErrKind.notFound, "not found"⟩⟩

/-- Stop-side stores for the C10 witness, also always not-found. -/
def c10StopStore : StopServiceOps :=
  ⟨fun _ => .error ⟨ErrKind.notFound, "not found"⟩,
    fun _ => .error ⟨ErrKind.notFound, "not found"⟩,
    fun _ => .error ⟨ErrKind.notFound, "not found"⟩⟩

/-- A trip with a whitespace-only name for the C10 witness. -/
def c10Trip : Trip :=
  ⟨7, "  ", ⟨0⟩, none, "", ⟨0⟩, ⟨0⟩⟩

/-- A stop whose departure precedes its arrival for the C10 witness. -/
def c10Stop : Stop :=
  ⟨8, 9, "camp", "", ⟨100⟩, some ⟨50⟩, "", ⟨0⟩, ⟨0⟩⟩

/-- C10 witness: on concrete invalid inputs against all-missing stores,
both updates return the validation error, not not-found. -/
theorem c10_witness :
    tripServiceUpdate c10TripStore c10Trip
      = .error ⟨ErrKind.validation, "validation error: name is required"⟩
    ∧ stopServiceUpdate c10StopStore c10Stop
      = .error ⟨ErrKind.validation, "validation error: departed_at must not be before arrived_at"⟩ :=
  ⟨((c10_update_validates_before_store c10TripStore c10StopStore c10Trip c10Stop
      ⟨ErrKind.validation, "validation error: name is required"⟩
      ⟨ErrKind.validation, "validation error: departed_at must not be before arrived_at"⟩).1
      (by decide)).1,
    ((c10_update_validates_before_store c10TripStore c10StopStore c10Trip c10Stop
      ⟨ErrKind.validation, "validation error: name is required"⟩
      ⟨ErrKind.validation, "validation error: departed_at must not be before arrived_at"⟩).2
      (by decide)).1⟩

/-- C4: trip Create and Update reject a name that is empty or whitespace
only and an end date strictly before the start date, both with errors of
the validation class; a trip whose end date equals its start date (and
whose name survives trimming) passes validation, and Create then returns
the store's result. -/
theorem c4_trip_validation_rules (r : TripRepoOps) (trip : Trip) :
    (trip.name.data.all isSpaceChar = true →
      (∃ e, tripServiceCreate r trip = .error e ∧ e.kind = ErrKind.validation)
      ∧ (∃ e, tripServiceUpdate r trip = .error e ∧ e.kind = ErrKind.validation))
    ∧ (∀ ed, trip.endDate = some ed → ed.sec < trip.startDate.sec →
      (∃ e, tripServiceCreate r trip = .error e ∧ e.kind = ErrKind.validation)
      ∧ (∃ e, tripServiceUpdate r trip = .error e ∧ e.kind = ErrKind.validation))
    ∧ (trip.endDate = some trip.startDate → ¬ trimSpace trip.name = "" →
      validateTrip trip = none
      ∧ ∀ res, r.create trip = .ok res → tripServiceCreate r trip = .ok res) := by
  refine ⟨?_, ?_, ?_⟩
  · intro hsp
    have hv : validateTrip trip
        = some ⟨ErrKind.validation, "validation error: name is required"⟩ := by
      unfold validateTrip
      rw [if_pos (trimSpace_of_all_space trip.name hsp)]
    have h2 := tripService_error_of_validate r trip _ hv
    exact ⟨⟨_, h2.1, rfl⟩, ⟨_, h2.2, rfl⟩⟩
  · intro ed hed hlt
    have hv : ∃ e, validateTrip trip = some e ∧ e.kind = ErrKind.validation := by
      unfold validateTrip
      by_cases hname : trimSpace trip.name = ""
      · rw [if_pos hname]
        exact ⟨_, rfl, rfl⟩
      · refine ⟨⟨ErrKind.validation, "validation error: end_date must not be before start_date"⟩, ?_, rfl⟩
        simp [hname, hed, Time.before, hlt]
    obtain ⟨e, he, hk⟩ := hv
    have h2 := tripService_error_of_validate r trip e he
    exact ⟨⟨e, h2.1, hk⟩, ⟨e, h2.2, hk⟩⟩
  · intro heq hname
    have hv : validateTrip trip = none := by
      simp [validateTrip, hname, heq, Time.before]
    refine ⟨hv, ?_⟩
    intro res hres
    unfold tripServiceCreate
    rw [hv, hres]

/-- A store double for the C4 witness: create echoes its input. -/
def c4Store : TripRepoOps :=
  ⟨fun t => .ok t, fun t => .ok t⟩

/-- A trip with a whitespace-only name. -/
def c4TripBadName : Trip :=
  ⟨1, " \t ", ⟨0⟩, none, "", ⟨0⟩, ⟨0⟩⟩

/-- A trip whose end date is strictly before its start date. -/
def c4TripBadDates : Trip :=
  ⟨2, "Summer Tour", ⟨864000⟩, some ⟨777600⟩, "", ⟨0⟩, ⟨0⟩⟩

/-- A one-day trip: end date equal to start date. -/
def c4TripOneDay : Trip :=
  ⟨3, "Summer Tour", ⟨864000⟩, some ⟨864000⟩, "", ⟨0⟩, ⟨0⟩⟩

/-- C4 witness: the three rules evaluated on concrete trips. -/
theorem c4_witness :
    ((∃ e, tripServiceCreate c4Store c4TripBadName = .error e ∧ e.kind = ErrKind.validation)
      ∧ (∃ e, tripServiceUpdate c4Store c4TripBadName = .error e ∧ e.kind = ErrKind.validation))
    ∧ ((∃ e, tripServiceCreate c4Store c4TripBadDates = .error e ∧ e.kind = ErrKind.validation)
      ∧ (∃ e, tripServiceUpdate c4Store c4TripBadDates = .error e ∧ e.kind = ErrKind.validation))
    ∧ (validateTrip c4TripOneDay = none
      ∧ tripServiceCreate c4Store c4TripOneDay = .ok c4TripOneDay) :=
  ⟨(c4_trip_validation_rules c4Store c4TripBadName).1 (by decide),
    (c4_trip_validation_rules c4Store c4TripBadDates).2.1 ⟨777600⟩ rfl (by decide),
    ((c4_trip_validation_rules c4Store c4TripOneDay).2.2 rfl (by decide)).1,
    ((c4_trip_validation_rules c4Store c4TripOneDay).2.2 rfl (by decide)).2 c4TripOneDay rfl⟩

/-- C8: the CSV rendering emits the header record with exactly the ten
columns in order, then one record per row in input order; each record
carries the row's fields with tag slugs joined by a pipe, date strings
passed through as produced (`YYYY-MM-DD` from the export), absent
timestamps as the empty string, and present timestamps in RFC3339 UTC
(ending in `Z`). -/
theorem c8_csv_rendering (rows : List ExportRow) :
    buildCSVRecords rows = csvHeaders :: rows.map domainRowToCSVRecord
    ∧ csvHeaders = ["trip_id", "trip_name", "trip_start_date", "trip_end_date",
        "stop_name", "stop_location", "arrived_at", "departed_at", "stop_notes", "tags"]
    ∧ (buildCSVRecords rows).length = rows.length + 1
    ∧ (∀ i : Nat, (buildCSVRecords rows)[i + 1]? = (rows[i]?).map domainRowToCSVRecord)
    ∧ (∀ r : ExportRow, domainRowToCSVRecord r =
        [r.tripID, r.tripName, r.tripStartDate, r.tripEndDate, r.stopName, r.stopLocation,
          formatOptionalTime r.arrivedAt, formatOptionalTime r.departedAt, r.stopNotes,
          String.intercalate "|" r.tags])
    ∧ formatOptionalTime none = ""
    ∧ (∀ x : Time, formatOptionalTime (some x) = formatRFC3339UTC x)
    ∧ (∀ x : Time, ∃ s : String, formatRFC3339UTC x = s ++ "Z")
    ∧ (∀ trip : Trip, (tripBase trip).tripStartDate = formatDate trip.startDate
        ∧ (tripBase trip).tripEndDate
          = (match trip.endDate with | some e => formatDate e | none => "")) := by
  refine ⟨rfl, rfl, ?_, ?_, fun _ => rfl, rfl, fun _ => rfl, ?_, fun _ => ⟨rfl, rfl⟩⟩
  · simp [buildCSVRecords]
  · intro i
    simp [buildCSVRecords]
  · intro x
    exact ⟨_, rfl⟩

/-- Projection of the all-success store: the trip listing. -/
@[simp] theorem okStores_tripsList (trips : List Trip) (sf : Nat → List Stop)
    (tf : Nat → List Tag) : (okStores trips sf tf).tripsList = .ok trips := rfl

/-- Projection of the all-success store: the stop listing. -/
@[simp] theorem okStores_stopsListByTripID (trips : List Trip) (sf : Nat → List Stop)
    (tf : Nat → List Tag) (id : Nat) :
    (okStores trips sf tf).stopsListByTripID id = .ok (sf id) := rfl

/-- Projection of the all-success store: the tag listing. -/
@[simp] theorem okStores_tagsListByStop (trips : List Trip) (sf : Nat → List Stop)
    (tf : Nat → List Tag) (id : Nat) :
    (okStores trips sf tf).tagsListByStop id = .ok (tf id) := rfl

/-- On all-success stores the inner export loop emits one row per stop, in
stop order. -/
theorem stopRowsLoop_ok (trips : List Trip) (sf : Nat → List Stop) (tf : Nat → List Tag)
    (base : ExportRow) (ss : List Stop) :
    stopRowsLoop (okStores trips sf tf) base ss
      = .ok (ss.map (fun s => stopRow base s ((tf s.id).map (fun tg => tg.slug)))) := by
  induction ss with
  | nil => rfl
  | cons s rest ih =>
    unfold stopRowsLoop
    rw [okStores_tagsListByStop, ih]
    rfl

/-- On all-success stores the outer export loop emits the concatenation of
the per-trip row blocks, in trip order. -/
theorem tripRowsLoop_ok (trips : List Trip) (sf : Nat → List Stop) (tf : Nat → List Tag)
    (l : List Trip) :
    tripRowsLoop (okStores trips sf tf) l = .ok (l.flatMap (rowsForTrip sf tf)) := by
  induction l with
  | nil => rfl
  | cons trip rest ih =>
    rcases hs : sf trip.id with _ | ⟨a, as⟩ <;>
      simp [tripRowsLoop, hs, ih, rowsForTrip, stopRowsLoop_ok trips sf tf]

/-- Arrival order carried to export rows: rows with present arrival times
are compared by them, rows lacking one compare trivially. -/
def rowArrivalLE (a b : ExportRow) : Prop :=
  match a.arrivedAt, b.arrivedAt with
  | some x, some y => x.sec ≤ y.sec
  | _, _ => True

/-- C1: on stores whose fetches all succeed, Export returns the
concatenation of per-trip row blocks in trip-listing order: one row per
stop in stop-listing order, and for a stopless trip exactly one row whose
stop fields are all empty or zero and whose tag list is empty; the row
count is the sum over trips of max(stop-count, 1), and a stop list sorted
by arrival yields rows sorted by arrival. -/
theorem c1_export_rows (trips : List Trip) (sf : Nat → List Stop) (tf : Nat → List Tag) :
    exportAll (okStores trips sf tf) = (some (trips.flatMap (rowsForTrip sf tf)), none)
    ∧ (trips.flatMap (rowsForTrip sf tf)).length
        = (trips.map (fun t => max (sf t.id).length 1)).sum
    ∧ (∀ t : Trip, (rowsForTrip sf tf t).length = max (sf t.id).length 1)
    ∧ (∀ t : Trip, sf t.id = [] → rowsForTrip sf tf t = [tripBase t])
    ∧ (∀ t : Trip, (tripBase t).stopName = "" ∧ (tripBase t).stopLocation = ""
        ∧ (tripBase t).arrivedAt = none ∧ (tripBase t).departedAt = none
        ∧ (tripBase t).stopNotes = "" ∧ (tripBase t).tags = [])
    ∧ (∀ t : Trip, ¬ sf t.id = [] →
        rowsForTrip sf tf t
          = (sf t.id).map (fun s => stopRow (tripBase t) s ((tf s.id).map (fun tg => tg.slug))))
    ∧ (∀ t : Trip,
        List.Pairwise (fun a b : Stop => a.arrivedAt.sec ≤ b.arrivedAt.sec) (sf t.id) →
        List.Pairwise rowArrivalLE (rowsForTrip sf tf t)) := by
  have hlen : ∀ t : Trip, (rowsForTrip sf tf t).length = max (sf t.id).length 1 := by
    intro t
    unfold rowsForTrip
    rcases h : sf t.id with _ | ⟨a, rest⟩ <;> simp
  refine ⟨?_, ?_, hlen, ?_, fun t => ⟨rfl, rfl, rfl, rfl, rfl, rfl⟩, ?_, ?_⟩
  · simp [exportAll, tripRowsLoop_ok trips sf tf]
  · induction trips with
    | nil => rfl
    | cons t rest ih => simp [hlen, ih]
  · intro t h
    unfold rowsForTrip
    simp [h]
  · intro t h
    unfold rowsForTrip
    simp [List.isEmpty_iff, h]
  · intro t hp
    unfold rowsForTrip
    rcases h : sf t.id with _ | ⟨a, rest⟩
    · simp
    · rw [h] at hp
      simp only [List.isEmpty_cons, if_neg]
      refine List.Pairwise.map _ ?_ hp
      intro x y hxy
      simpa [rowArrivalLE, stopRow] using hxy

/-- Two trips for the C1 witness; the second has no stops. -/
def c1Trips : List Trip :=
  [⟨1, "A", ⟨0⟩, none, "", ⟨0⟩, ⟨0⟩⟩, ⟨2, "B", ⟨0⟩, none, "", ⟨0⟩, ⟨0⟩⟩]

/-- Stop listings for the C1 witness: trip 1 has two stops in arrival
order, every other trip has none. -/
def c1StopsOf : Nat → List Stop :=
  fun id =>
    if id = 1 then
      [⟨11, 1, "s1", "", ⟨10⟩, none, "", ⟨0⟩, ⟨0⟩⟩, ⟨12, 1, "s2", "", ⟨20⟩, none, "", ⟨0⟩, ⟨0⟩⟩]
    else []

/-- Tag listings for the C1 witness. -/
def c1TagsOf : Nat → List Tag :=
  fun _ => [⟨5, "Rocky Mountains", "rocky-mountains", ⟨0⟩⟩]

/-- C1 witness: concrete stores with two trips (stop counts 2 and 0)
produce the structured row list, the stopless trip one base row, and
arrival-sorted rows. -/
theorem c1_witness :
    exportAll (okStores c1Trips c1StopsOf c1TagsOf)
      = (some (c1Trips.flatMap (rowsForTrip c1StopsOf c1TagsOf)), none)
    ∧ (c1Trips.flatMap (rowsForTrip c1StopsOf c1TagsOf)).length
        = (c1Trips.map (fun t => max (c1StopsOf t.id).length 1)).sum
    ∧ rowsForTrip c1StopsOf c1TagsOf ⟨2, "B", ⟨0⟩, none, "", ⟨0⟩, ⟨0⟩⟩
        = [tripBase ⟨2, "B", ⟨0⟩, none, "", ⟨0⟩, ⟨0⟩⟩]
    ∧ List.Pairwise rowArrivalLE
        (rowsForTrip c1StopsOf c1TagsOf ⟨1, "A", ⟨0⟩, none, "", ⟨0⟩, ⟨0⟩⟩) :=
  ⟨(c1_export_rows c1Trips c1StopsOf c1TagsOf).1,
    (c1_export_rows c1Trips c1StopsOf c1TagsOf).2.1,
    (c1_export_rows c1Trips c1StopsOf c1TagsOf).2.2.2.1 _ (by decide),
    (c1_export_rows c1Trips c1StopsOf c1TagsOf).2.2.2.2.2.2 _ (by decide)⟩

/-- The inner export loop errs exactly when some reached tag fetch errs. -/
theorem stopRowsLoop_isErr (r : ExportStores) (base : ExportRow) (ss : List Stop) :
    isErr (stopRowsLoop r base ss) = ss.any (fun s => isErr (r.tagsListByStop s.id)) := by
  induction ss with
  | nil => rfl
  | cons s rest ih =>
    rcases h : r.tagsListByStop s.id with e | tags
    · simp [stopRowsLoop, h, isErr]
    · rcases h2 : stopRowsLoop r base rest with e2 | rows <;> rw [h2] at ih <;>
        · simp [stopRowsLoop, h, h2, isErr] at ih ⊢
          exact ih

/-- The outer export loop errs exactly when some reached stop or tag fetch
errs. -/
theorem tripRowsLoop_isErr (r : ExportStores) (l : List Trip) :
    isErr (tripRowsLoop r l)
      = l.any (fun t =>
          match r.stopsListByTripID t.id with
          | .error _ => true
          | .ok stops => stops.any (fun s => isErr (r.tagsListByStop s.id))) := by
  induction l with
  | nil => rfl
  | cons trip rest ih =>
    rcases h : r.stopsListByTripID trip.id with e | stops
    · simp [tripRowsLoop, h, isErr]
    · rcases stops with _ | ⟨a, as⟩
      · rcases h2 : tripRowsLoop r rest with e2 | rows <;> rw [h2] at ih <;>
          · simp [tripRowsLoop, h, h2, isErr] at ih ⊢
            exact ih
      · have hs := stopRowsLoop_isErr r (tripBase trip) (a :: as)
        rcases h1 : stopRowsLoop r (tripBase trip) (a :: as) with e1 | rows1 <;>
          rw [h1] at hs
        · simp [isErr] at hs
          simp [tripRowsLoop, h, h1, isErr, List.any_cons, hs]
        · simp [isErr] at hs
          rcases h2 : tripRowsLoop r rest with e2 | rows <;> rw [h2] at ih
          · simp [tripRowsLoop, h, h1, h2, isErr] at ih ⊢
            simp [hs, ih]
          · simp [tripRowsLoop, h, h1, h2, isErr] at ih ⊢
            exact ⟨hs, ih⟩

/-- C6: Export returns an error exactly when some reached fetch errs, and
then the row slice is nil (no partial prefix); when no fetch errs it
returns rows with no error. -/
theorem c6_export_fail_fast (r : ExportStores) :
    ((exportAll r).2.isSome ↔ anyFetchErr r = true)
    ∧ ((exportAll r).2.isSome → (exportAll r).1 = none)
    ∧ (anyFetchErr r = false → ∃ rows, exportAll r = (some rows, none)) := by
  unfold exportAll anyFetchErr
  rcases h : r.tripsList with e | trips
  · simp [h]
  · have hiff := tripRowsLoop_isErr r trips
    rcases h2 : tripRowsLoop r trips with e2 | rows <;> rw [h2] at hiff
    · simp [isErr] at hiff
      simp [h, h2, isErr, hiff]
    · simp [isErr] at hiff
      simp [h, h2, isErr, hiff]
      exact hiff

/-- A store whose trip listing fails, for the C6 witness. -/
def c6BadStores : ExportStores :=
  ⟨.error ⟨ErrKind.infra, "connection refused"⟩,
    fun _ => .ok [], fun _ => .ok []⟩

/-- C6 witness: on a concrete failing store the error is reported with a
nil row slice, and on a concrete all-success store rows come back with no
error. -/
theorem c6_witness :
    (exportAll c6BadStores).1 = none
    ∧ (∃ rows, exportAll (okStores [] (fun _ => []) (fun _ => []))
        = (some rows, none)) :=
  ⟨(c6_export_fail_fast c6BadStores).2.1 (by decide),
    (c6_export_fail_fast (okStores [] (fun _ => []) (fun _ => []))).2.2 (by decide)⟩

/-- A tag found by slug has that slug and is a member of the table. -/
theorem find_slug_mem (rows : List Tag) (slug : String) (t : Tag)
    (h : rows.find? (fun x => x.slug == slug) = some t) :
    t ∈ rows ∧ t.slug = slug := by
  refine ⟨List.mem_of_find?_eq_some h, ?_⟩
  have hp := List.find?_some h
  simpa using hp

/-- C7: AddTag trims the name and rejects an empty trimmed name or an
empty slug with a validation error whatever the stores do, returning the
state unchanged (no store call); otherwise, against the Postgres model, it
upserts by slug and then links tag to stop, where re-linking an already
linked pair returns the resolved tag with the state unchanged (a no-op,
not an error), and a fresh link just appends the join row. -/
theorem c7_add_tag (σ : Type) (ops : TagStoreOps σ) (db : σ) (cdb : TagDB)
    (stopID : Nat) (tagName : String) (t : Tag) :
    (trimSpace tagName = "" →
      stopServiceAddTag ops db stopID tagName
        = (db, .error ⟨ErrKind.validation, "validation error: tag name is required"⟩))
    ∧ (¬ trimSpace tagName = "" → toSlug (trimSpace tagName) = "" →
      stopServiceAddTag ops db stopID tagName
        = (db, .error ⟨ErrKind.validation, "validation error: tag name contains no usable characters"⟩))
    ∧ (¬ trimSpace tagName = "" → ¬ toSlug (trimSpace tagName) = "" →
      cdb.tagRows.find? (fun x => x.slug == toSlug (trimSpace tagName)) = some t →
      cdb.stopIDs.contains stopID = true →
      cdb.stopTags.contains (stopID, t.id) = true →
      stopServiceAddTag pgTagOps cdb stopID tagName = (cdb, .ok t))
    ∧ (¬ trimSpace tagName = "" → ¬ toSlug (trimSpace tagName) = "" →
      cdb.tagRows.find? (fun x => x.slug == toSlug (trimSpace tagName)) = some t →
      cdb.stopIDs.contains stopID = true →
      cdb.stopTags.contains (stopID, t.id) = false →
      stopServiceAddTag pgTagOps cdb stopID tagName
        = (⟨cdb.stopIDs, cdb.tagRows, cdb.stopTags ++ [(stopID, t.id)], cdb.nextID⟩, .ok t)) := by
  have hany : cdb.tagRows.find? (fun x => x.slug == toSlug (trimSpace tagName)) = some t →
      cdb.tagRows.any (fun x => x.id == t.id) = true := by
    intro h
    exact List.any_eq_true.mpr ⟨t, (find_slug_mem cdb.tagRows _ t h).1, by simp⟩
  refine ⟨?_, ?_, ?_, ?_⟩
  · intro h1
    simp [stopServiceAddTag, h1]
  · intro h1 h2
    simp [stopServiceAddTag, h1, h2]
  · intro h1 h2 hfind hstop hlink
    have hstop2 : stopID ∈ cdb.stopIDs := by simpa using hstop
    have hlink2 : (stopID, t.id) ∈ cdb.stopTags := by simpa using hlink
    simp [stopServiceAddTag, h1, h2, pgTagOps, pgUpsert, hfind, pgAddToStop,
      hstop2, hany hfind, hlink2]
  · intro h1 h2 hfind hstop hlink
    have hstop2 : stopID ∈ cdb.stopIDs := by simpa using hstop
    have hlink2 : ¬ (stopID, t.id) ∈ cdb.stopTags := by simpa using hlink
    simp [stopServiceAddTag, h1, h2, pgTagOps, pgUpsert, hfind, pgAddToStop,
      hstop2, hany hfind, hlink2]

/-- A store state for the C7 witness: stop 1 exists, the tag `walmart`
exists and is already linked to stop 1. -/
def c7DB : TagDB :=
  ⟨[1], [⟨5, "walmart", "walmart", ⟨0⟩⟩], [(1, 5)], 6⟩

/-- A store state for the C7 witness with the tag present but not linked. -/
def c7DB2 : TagDB :=
  ⟨[1], [⟨5, "walmart", "walmart", ⟨0⟩⟩], [], 6⟩

/-- C7 witness: the two validation rejections, the idempotent re-link, and
the fresh link, on concrete states. -/
theorem c7_witness :
    stopServiceAddTag pgTagOps c7DB 1 "  "
      = (c7DB, .error ⟨ErrKind.validation, "validation error: tag name is required"⟩)
    ∧ stopServiceAddTag pgTagOps c7DB 1 "!!!"
      = (c7DB, .error ⟨ErrKind.validation, "validation error: tag name contains no usable characters"⟩)
    ∧ stopServiceAddTag pgTagOps c7DB 1 "Walmart"
      = (c7DB, .ok ⟨5, "walmart", "walmart", ⟨0⟩⟩)
    ∧ stopServiceAddTag pgTagOps c7DB2 1 "Walmart"
      = (⟨[1], [⟨5, "walmart", "walmart", ⟨0⟩⟩], [(1, 5)], 6⟩, .ok ⟨5, "walmart", "walmart", ⟨0⟩⟩) :=
  ⟨(c7_add_tag TagDB pgTagOps c7DB c7DB 1 "  " ⟨5, "walmart", "walmart", ⟨0⟩⟩).1 (by decide),
    (c7_add_tag TagDB pgTagOps c7DB c7DB 1 "!!!" ⟨5, "walmart", "walmart", ⟨0⟩⟩).2.1
      (by decide) (by decide),
    (c7_add_tag TagDB pgTagOps c7DB c7DB 1 "Walmart" ⟨5, "walmart", "walmart", ⟨0⟩⟩).2.2.1
      (by decide) (by decide) (by decide) (by decide) (by decide),
    (c7_add_tag TagDB pgTagOps c7DB2 c7DB2 1 "Walmart" ⟨5, "walmart", "walmart", ⟨0⟩⟩).2.2.2
      (by decide) (by decide) (by decide) (by decide) (by decide)⟩

/-- C9: with a nonexistent stop id, AddTag against the Postgres model
still runs the upsert first and only then fails at the link step: the
result is a non-validation error, yet the tag with the normalized slug is
present in the final state, and when no tag with that slug existed before
the tag table has grown by one row despite the returned error. -/
theorem c9_add_tag_not_atomic (cdb : TagDB) (stopID : Nat) (tagName : String)
    (h1 : ¬ trimSpace tagName = "") (h2 : ¬ toSlug (trimSpace tagName) = "")
    (h3 : cdb.stopIDs.contains stopID = false) :
    (∃ e, (stopServiceAddTag pgTagOps cdb stopID tagName).2 = .error e
      ∧ ¬ e.kind = ErrKind.validation)
    ∧ (∃ x, x ∈ (stopServiceAddTag pgTagOps cdb stopID tagName).1.tagRows
        ∧ x.slug = toSlug (trimSpace tagName))
    ∧ ((∀ x ∈ cdb.tagRows, ¬ x.slug = toSlug (trimSpace tagName)) →
        (stopServiceAddTag pgTagOps cdb stopID tagName).1.tagRows.length
          = cdb.tagRows.length + 1) := by
  rcases hfind : cdb.tagRows.find? (fun x => x.slug == toSlug (trimSpace tagName)) with _ | t
  · have hres : stopServiceAddTag pgTagOps cdb stopID tagName
        = (⟨cdb.stopIDs, cdb.tagRows ++ [⟨cdb.nextID, trimSpace tagName, toSlug (trimSpace tagName), ⟨0⟩⟩],
            cdb.stopTags, cdb.nextID + 1⟩,
          .error (wrapErr "service.StopService.AddTag"
            ⟨ErrKind.infra, "repo.TagRepo.AddToStop: foreign key violation"⟩)) := by
      have hstop3 : ¬ stopID ∈ cdb.stopIDs := by simpa using h3
      simp [stopServiceAddTag, h1, h2, pgTagOps, pgUpsert, hfind, pgAddToStop, hstop3]
    rw [hres]
    refine ⟨⟨_, rfl, by simp [wrapErr]⟩,
      ⟨⟨cdb.nextID, trimSpace tagName, toSlug (trimSpace tagName), ⟨0⟩⟩, ?_, rfl⟩,
      fun _ => by simp⟩
    simp
  · have hres : stopServiceAddTag pgTagOps cdb stopID tagName
        = (cdb, .error (wrapErr "service.StopService.AddTag"
            ⟨ErrKind.infra, "repo.TagRepo.AddToStop: foreign key violation"⟩)) := by
      have hstop3 : ¬ stopID ∈ cdb.stopIDs := by simpa using h3
      simp [stopServiceAddTag, h1, h2, pgTagOps, pgUpsert, hfind, pgAddToStop, hstop3]
    rw [hres]
    obtain ⟨hmem, hslug⟩ := find_slug_mem cdb.tagRows _ t hfind
    exact ⟨⟨_, rfl, by simp [wrapErr]⟩, ⟨t, hmem, hslug⟩,
      fun hall => absurd hslug (hall t hmem)⟩

/-- A state for the C9 witness: no stops exist, no tags exist. -/
def c9DB : TagDB :=
  ⟨[], [], [], 0⟩

/-- C9 witness: adding `Walmart` to the nonexistent stop 3 errs with a
non-validation error while the tag `walmart` is left in the table, growing
it from zero to one row. -/
theorem c9_witness :
    (∃ e, (stopServiceAddTag pgTagOps c9DB 3 "Walmart").2 = .error e
      ∧ ¬ e.kind = ErrKind.validation)
    ∧ (∃ x, x ∈ (stopServiceAddTag pgTagOps c9DB 3 "Walmart").1.tagRows
        ∧ x.slug = toSlug (trimSpace "Walmart"))
    ∧ (stopServiceAddTag pgTagOps c9DB 3 "Walmart").1.tagRows.length
        = c9DB.tagRows.length + 1 :=
  ⟨(c9_add_tag_not_atomic c9DB 3 "Walmart" (by decide) (by decide) (by decide)).1,
    (c9_add_tag_not_atomic c9DB 3 "Walmart" (by decide) (by decide) (by decide)).2.1,
    (c9_add_tag_not_atomic c9DB 3 "Walmart" (by decide) (by decide) (by decide)).2.2
      (by decide)⟩

/-! Infrastructure for the slug-normalization claim: characterize the
output alphabet of `toSlug` and show it is a fixed point of each stage. -/

/-- Every character of the list is in the slug alphabet or a hyphen. -/
def AllSlugOrHyphen (l : List Char) : Prop :=
  ∀ c ∈ l, isSlugChar c = true ∨ c = '-'

/-- No two adjacent characters are both outside the slug alphabet. -/
def NoAdjNonSlug : List Char → Prop
  | [] => True
  | [_] => True
  | a :: b :: rest => (isSlugChar a = true ∨ isSlugChar b = true) ∧ NoAdjNonSlug (b :: rest)

/-- The first character, if any, is not a hyphen. -/
def HeadNotHyphen : List Char → Prop
  | [] => True
  | c :: _ => ¬ c = '-'

/-- The last character, if any, is not a hyphen. -/
def LastNotHyphen : List Char → Prop
  | [] => True
  | [c] => ¬ c = '-'
  | _ :: c2 :: rest => LastNotHyphen (c2 :: rest)

/-- Lowercasing fixes characters of the slug alphabet and the hyphen. -/
theorem toLowerChar_eq_self (c : Char) (h : isSlugChar c = true ∨ c = '-') :
    toLowerChar c = c := by
  unfold toLowerChar
  rw [if_neg]
  intro hc
  rcases h with h | h
  · simp [isSlugChar] at h
    omega
  · subst h
    exact absurd hc (by decide)

/-- Lowercasing fixes strings over the slug alphabet plus hyphen. -/
theorem map_toLowerChar_eq_self (l : List Char) (h : AllSlugOrHyphen l) :
    l.map toLowerChar = l := by
  induction l with
  | nil => rfl
  | cons c cs ih =>
    rw [List.map_cons, toLowerChar_eq_self c (h c (by simp)),
      ih (fun x hx => h x (by simp [hx]))]

/-- A valid code point survives the round trip through `Char.ofNat`. -/
theorem char_ofNat_toNat_lower (n : Nat) (h1 : 97 ≤ n) (h2 : n ≤ 122) :
    (Char.ofNat n).toNat = n := by
  have hv : n.isValidChar := Or.inl (by omega)
  simp [Char.ofNat, hv]
  rfl

/-- Lowercasing one character is idempotent. -/
theorem toLowerChar_idem (c : Char) : toLowerChar (toLowerChar c) = toLowerChar c := by
  unfold toLowerChar
  by_cases h : 65 ≤ c.toNat ∧ c.toNat ≤ 90
  · rw [if_pos h]
    have ht : (Char.ofNat (c.toNat + 32)).toNat = c.toNat + 32 :=
      char_ofNat_toNat_lower _ (by omega) (by omega)
    rw [if_neg (by rw [ht]; omega)]
  · rw [if_neg h, if_neg h]

/-- Unfolding `collapseRuns` on a singleton. -/
theorem collapseRuns_singleton (c : Char) :
    collapseRuns [c] = if isSlugChar c then [c] else ['-'] := rfl

/-- A leading slug character passes through `collapseRuns`. -/
theorem collapseRuns_cons_slug (c : Char) (cs : List Char) (h : isSlugChar c = true) :
    collapseRuns (c :: cs) = c :: collapseRuns cs := by
  cases cs with
  | nil => simp [collapseRuns, h]
  | cons c2 rest => simp [collapseRuns, h]

/-- A non-slug character right before a slug character emits the hyphen
that closes its run. -/
theorem collapseRuns_cons_hyphen (c c2 : Char) (cs : List Char)
    (h : ¬ isSlugChar c = true) (h2 : isSlugChar c2 = true) :
    collapseRuns (c :: c2 :: cs) = '-' :: collapseRuns (c2 :: cs) := by
  simp [collapseRuns, h, h2]

/-- A non-slug character inside a run (next one also non-slug) is dropped. -/
theorem collapseRuns_cons_skip (c c2 : Char) (cs : List Char)
    (h : ¬ isSlugChar c = true) (h2 : ¬ isSlugChar c2 = true) :
    collapseRuns (c :: c2 :: cs) = collapseRuns (c2 :: cs) := by
  simp [collapseRuns, h, h2]

/-- The output of `collapseRuns` stays in the slug alphabet plus hyphen. -/
theorem allSlugOrHyphen_collapseRuns (l : List Char) :
    AllSlugOrHyphen (collapseRuns l) := by
  induction l with
  | nil => intro x hx; cases hx
  | cons c cs ih =>
    cases cs with
    | nil =>
      intro x hx
      rw [collapseRuns_singleton] at hx
      by_cases h : isSlugChar c = true
      · rw [if_pos h] at hx
        simp at hx
        subst hx
        exact Or.inl h
      · rw [if_neg h] at hx
        simp at hx
        subst hx
        exact Or.inr rfl
    | cons c2 rest =>
      by_cases h : isSlugChar c = true
      · intro x hx
        rw [collapseRuns_cons_slug c _ h] at hx
        rcases List.mem_cons.mp hx with h1 | h1
        · subst h1
          exact Or.inl h
        · exact ih x h1
      · by_cases h2 : isSlugChar c2 = true
        · intro x hx
          rw [collapseRuns_cons_hyphen c c2 rest h h2] at hx
          rcases List.mem_cons.mp hx with h1 | h1
          · subst h1
            exact Or.inr rfl
          · exact ih x h1
        · rw [collapseRuns_cons_skip c c2 rest h h2]
          exact ih

/-- A tail of a no-adjacent-non-slug list still has the property. -/
theorem noAdjNonSlug_tail (a : Char) (l : List Char) (h : NoAdjNonSlug (a :: l)) :
    NoAdjNonSlug l := by
  cases l with
  | nil => trivial
  | cons b rest => exact h.2

/-- Prepending a slug character preserves no-adjacent-non-slug. -/
theorem noAdjNonSlug_cons_slug (c : Char) (l : List Char) (hc : isSlugChar c = true)
    (hl : NoAdjNonSlug l) : NoAdjNonSlug (c :: l) := by
  cases l with
  | nil => trivial
  | cons b rest => exact ⟨Or.inl hc, hl⟩

/-- The output of `collapseRuns` never has two adjacent non-slug
characters: every run collapses to one isolated hyphen. -/
theorem noAdjNonSlug_collapseRuns (l : List Char) :
    NoAdjNonSlug (collapseRuns l) := by
  induction l with
  | nil => trivial
  | cons c cs ih =>
    cases cs with
    | nil =>
      rw [collapseRuns_singleton]
      split <;> trivial
    | cons c2 rest =>
      by_cases h : isSlugChar c = true
      · rw [collapseRuns_cons_slug c _ h]
        exact noAdjNonSlug_cons_slug c _ h ih
      · by_cases h2 : isSlugChar c2 = true
        · rw [collapseRuns_cons_hyphen c c2 rest h h2]
          rw [collapseRuns_cons_slug c2 rest h2] at ih ⊢
          exact ⟨Or.inr h2, ih⟩
        · rw [collapseRuns_cons_skip c c2 rest h h2]
          exact ih

/-- On lists already over the slug alphabet plus isolated hyphens,
`collapseRuns` is the identity. -/
theorem collapseRuns_eq_self (l : List Char) (hall : AllSlugOrHyphen l)
    (hadj : NoAdjNonSlug l) : collapseRuns l = l := by
  induction l with
  | nil => rfl
  | cons c cs ih =>
    cases cs with
    | nil =>
      rcases hall c (by simp) with h | h
      · rw [collapseRuns_singleton, if_pos h]
      · subst h
        rfl
    | cons c2 rest =>
      have hall2 : AllSlugOrHyphen (c2 :: rest) := fun x hx => hall x (by simp [hx])
      have hadj2 := noAdjNonSlug_tail c _ hadj
      by_cases h : isSlugChar c = true
      · rw [collapseRuns_cons_slug c _ h, ih hall2 hadj2]
      · have hc : c = '-' := (hall c (by simp)).resolve_left h
        have h2 : isSlugChar c2 = true := hadj.1.resolve_left h
        rw [collapseRuns_cons_hyphen c c2 rest h h2, ih hall2 hadj2, hc]

/-- Dropping leading hyphens keeps the alphabet property. -/
theorem allSlugOrHyphen_dropWhile (l : List Char) (h : AllSlugOrHyphen l) :
    AllSlugOrHyphen (l.dropWhile (fun c => c == '-')) :=
  fun c hc => h c ((List.dropWhile_sublist _).subset hc)

/-- Dropping leading hyphens keeps no-adjacent-non-slug. -/
theorem noAdjNonSlug_dropWhile (l : List Char) (h : NoAdjNonSlug l) :
    NoAdjNonSlug (l.dropWhile (fun c => c == '-')) := by
  induction l with
  | nil => trivial
  | cons c cs ih =>
    rw [List.dropWhile_cons]
    by_cases hc : (c == '-') = true
    · simp only [hc, if_true]
      exact ih (noAdjNonSlug_tail c cs h)
    · simp only [hc, if_false]
      exact h

/-- After dropping leading hyphens the head is not a hyphen. -/
theorem headNotHyphen_dropWhile (l : List Char) :
    HeadNotHyphen (l.dropWhile (fun c => c == '-')) := by
  induction l with
  | nil => trivial
  | cons c cs ih =>
    rw [List.dropWhile_cons]
    by_cases hc : (c == '-') = true
    · simp only [hc, if_true]
      exact ih
    · simp only [hc, if_false]
      intro heq
      exact hc (by simp [heq])

/-- Trimming trailing hyphens keeps the alphabet property. -/
theorem allSlugOrHyphen_trimTrailing (l : List Char) (h : AllSlugOrHyphen l) :
    AllSlugOrHyphen (trimTrailingHyphens l) := by
  induction l with
  | nil => intro x hx; cases hx
  | cons c cs ih =>
    have hc := h c (by simp)
    have hcs : AllSlugOrHyphen cs := fun x hx => h x (by simp [hx])
    unfold trimTrailingHyphens
    cases htt : trimTrailingHyphens cs with
    | nil =>
      by_cases hh : (c == '-') = true
      · simp only [hh, if_true]
        intro x hx
        cases hx
      · simp only [hh, if_false]
        intro x hx
        simp at hx
        subst hx
        exact hc
    | cons r rs =>
      have ih2 := ih hcs
      rw [htt] at ih2
      intro x hx
      rcases List.mem_cons.mp hx with h1 | h1
      · subst h1
        exact hc
      · exact ih2 x h1

/-- Trimming trailing hyphens never turns the head into a hyphen. -/
theorem headNotHyphen_trimTrailing (l : List Char) (h : HeadNotHyphen l) :
    HeadNotHyphen (trimTrailingHyphens l) := by
  cases l with
  | nil => trivial
  | cons c cs =>
    unfold trimTrailingHyphens
    cases htt : trimTrailingHyphens cs with
    | nil =>
      have hh : ¬ (c == '-') = true := by
        intro hb
        exact h (by simpa using hb)
      simp only [hh, if_false]
      exact h
    | cons r rs => exact h

/-- After trimming trailing hyphens the last character is not a hyphen. -/
theorem lastNotHyphen_trimTrailing (l : List Char) :
    LastNotHyphen (trimTrailingHyphens l) := by
  induction l with
  | nil => trivial
  | cons c cs ih =>
    unfold trimTrailingHyphens
    cases htt : trimTrailingHyphens cs with
    | nil =>
      by_cases hh : (c == '-') = true
      · simp only [hh, if_true]
        trivial
      · simp only [hh, if_false]
        intro heq
        exact hh (by simp [heq])
    | cons r rs =>
      rw [htt] at ih
      exact ih

/-- The trim of a nonempty list is empty or keeps the original head. -/
theorem trimTrailing_head (d : Char) (ds : List Char) :
    trimTrailingHyphens (d :: ds) = []
    ∨ ∃ rest, trimTrailingHyphens (d :: ds) = d :: rest := by
  unfold trimTrailingHyphens
  cases htt : trimTrailingHyphens ds with
  | nil =>
    by_cases hc : (d == '-') = true
    · left
      simp [hc]
    · right
      exact ⟨[], by simp [hc]⟩
  | cons r rs => exact Or.inr ⟨r :: rs, rfl⟩

/-- Trimming trailing hyphens keeps no-adjacent-non-slug. -/
theorem noAdjNonSlug_trimTrailing (l : List Char) (h : NoAdjNonSlug l) :
    NoAdjNonSlug (trimTrailingHyphens l) := by
  induction l with
  | nil => trivial
  | cons c cs ih =>
    have htail := noAdjNonSlug_tail c cs h
    unfold trimTrailingHyphens
    cases htt : trimTrailingHyphens cs with
    | nil =>
      by_cases hc : (c == '-') = true
      · simp only [hc, if_true]
        trivial
      · simp only [hc, if_false]
        trivial
    | cons r rs =>
      have ih2 := ih htail
      rw [htt] at ih2
      cases cs with
      | nil => simp [trimTrailingHyphens] at htt
      | cons d ds =>
        rcases trimTrailing_head d ds with h0 | ⟨rest, h0⟩
        · rw [h0] at htt
          cases htt
        · rw [h0] at htt
          have hrd : r = d := by
            injection htt with h1 h2
            exact h1.symm
          subst hrd
          exact ⟨h.1, ih2⟩

/-- Dropping leading hyphens is the identity when the head is not one. -/
theorem dropWhile_eq_self_of_head (l : List Char) (h : HeadNotHyphen l) :
    l.dropWhile (fun c => c == '-') = l := by
  cases l with
  | nil => rfl
  | cons c cs =>
    have hh : ¬ (c == '-') = true := by
      intro hb
      exact h (by simpa using hb)
    rw [List.dropWhile_cons]
    simp [hh]

/-- Trimming trailing hyphens is the identity when the last character is
not one. -/
theorem trimTrailing_eq_self_of_last (l : List Char) (h : LastNotHyphen l) :
    trimTrailingHyphens l = l := by
  induction l with
  | nil => rfl
  | cons c cs ih =>
    cases cs with
    | nil =>
      have hh : ¬ (c == '-') = true := by
        intro hb
        exact h (by simpa using hb)
      simp [trimTrailingHyphens, hh]
    | cons c2 rest =>
      have h2 : LastNotHyphen (c2 :: rest) := h
      have := ih h2
      unfold trimTrailingHyphens
      rw [this]

/-- The output of `toSlug` is canonical: characters in the slug alphabet
with isolated interior hyphens and non-hyphen boundary characters. -/
theorem toSlug_canonical (s : String) :
    AllSlugOrHyphen (toSlug s).data ∧ NoAdjNonSlug (toSlug s).data
    ∧ HeadNotHyphen (toSlug s).data ∧ LastNotHyphen (toSlug s).data := by
  show AllSlugOrHyphen (trimHyphens (collapseRuns (lowerString s).data))
    ∧ NoAdjNonSlug (trimHyphens (collapseRuns (lowerString s).data))
    ∧ HeadNotHyphen (trimHyphens (collapseRuns (lowerString s).data))
    ∧ LastNotHyphen (trimHyphens (collapseRuns (lowerString s).data))
  unfold trimHyphens
  refine ⟨?_, ?_, ?_, ?_⟩
  · exact allSlugOrHyphen_trimTrailing _
      (allSlugOrHyphen_dropWhile _ (allSlugOrHyphen_collapseRuns _))
  · exact noAdjNonSlug_trimTrailing _
      (noAdjNonSlug_dropWhile _ (noAdjNonSlug_collapseRuns _))
  · exact headNotHyphen_trimTrailing _ (headNotHyphen_dropWhile _)
  · exact lastNotHyphen_trimTrailing _

/-- A canonical string is a fixed point of `toSlug`. -/
theorem toSlug_fixed (s : String) (h1 : AllSlugOrHyphen s.data)
    (h2 : NoAdjNonSlug s.data) (h3 : HeadNotHyphen s.data)
    (h4 : LastNotHyphen s.data) : toSlug s = s := by
  unfold toSlug trimHyphens lowerString
  show (⟨trimTrailingHyphens ((collapseRuns (⟨s.data.map toLowerChar⟩ : String).data).dropWhile
    (fun c => c == '-'))⟩ : String) = s
  have hd : (⟨s.data.map toLowerChar⟩ : String).data = s.data.map toLowerChar := rfl
  rw [hd, map_toLowerChar_eq_self _ h1, collapseRuns_eq_self _ h1 h2,
    dropWhile_eq_self_of_head _ h3, trimTrailing_eq_self_of_last _ h4]

/-- C2: `toSlug` lowercases, replaces every maximal run of non-alphanumeric
characters with one hyphen, and trims boundary hyphens; it is idempotent
and case-insensitive, and maps the three reference inputs as stated. -/
theorem c2_toSlug_properties :
    (∀ s : String, toSlug s = ⟨trimHyphens (collapseRuns (lowerString s).data)⟩)
    ∧ (∀ s : String, toSlug (toSlug s) = toSlug s)
    ∧ (∀ s : String, toSlug s = toSlug (lowerString s))
    ∧ toSlug "WALMART" = "walmart"
    ∧ toSlug "Rocky  Mountains!" = "rocky-mountains"
    ∧ toSlug "!!!" = "" := by
  refine ⟨fun s => rfl, ?_, ?_, by decide, by decide, by decide⟩
  · intro s
    obtain ⟨h1, h2, h3, h4⟩ := toSlug_canonical s
    exact toSlug_fixed (toSlug s) h1 h2 h3 h4
  · intro s
    unfold toSlug lowerString
    have hd : ∀ l : List Char, (⟨l⟩ : String).data = l := fun l => rfl
    rw [hd, hd, List.map_map]
    have hmaps : s.data.map (toLowerChar ∘ toLowerChar) = s.data.map toLowerChar := by
      simp [Function.comp, toLowerChar_idem]
    rw [hmaps]

end RVLogbook
